import Mathlib

/-!
Verification development for the image-to-PDF conversion backend.

The relational store holds two tables: PDF conversions and image uploads.
Each RPC handler is embedded as a pure function from a `Store` to a result
paired with the updated `Store`.  Fallible handlers return
`Except String _` carrying the thrown error message; `deleteImage` returns
its boolean sentinel.  The simulated PDF-generation step inside
`processConversion` is parameterized by an `Except String String` outcome
(the produced path, or a thrown error message) so that the handler's
catch-block behaviour is visible; the shipped code always supplies a
successful path built by `pdfPath`.
-/

namespace ImgToPdf

/-- Page size enum from the zod schema. -/
inductive PageSize
  | a4 | letter | legal | a3 | a5
deriving DecidableEq, Repr

/-- Page orientation enum from the zod schema. -/
inductive Orientation
  | portrait | landscape
deriving DecidableEq, Repr

/-- Conversion status enum from the zod schema. -/
inductive ConversionStatus
  | pending | processing | completed | failed
deriving DecidableEq, Repr

/-- Image format enum from the zod schema. -/
inductive ImageFormat
  | jpeg | png | webp | gif
deriving DecidableEq, Repr

/-- Rendering of a status into the text used by error messages. -/
def ConversionStatus.str : ConversionStatus → String
  | .pending => "pending"
  | .processing => "processing"
  | .completed => "completed"
  | .failed => "failed"

/-- One row of the pdf_conversions table. -/
structure Conversion where
  id : Nat
  page_size : PageSize
  orientation : Orientation
  status : ConversionStatus
  pdf_file_path : Option String
  error_message : Option String
  created_at : Nat
  completed_at : Option Nat
deriving DecidableEq, Repr

/-- One row of the image_uploads table. -/
structure ImageRow where
  id : Nat
  conversion_id : Nat
  original_name : String
  file_path : String
  file_size : Nat
  format : ImageFormat
  order_index : Nat
  uploaded_at : Nat
deriving DecidableEq, Repr

/-- The relational store: both tables plus the serial id counters. -/
structure Store where
  conversions : List Conversion
  images : List ImageRow
  nextConvId : Nat
  nextImageId : Nat
deriving DecidableEq, Repr

/-- The store before any operation has run. -/
def emptyStore : Store := ⟨[], [], 1, 1⟩

/-- SELECT of a conversion row by id. -/
def findConv (s : Store) (cid : Nat) : Option Conversion :=
  s.conversions.find? (fun c => c.id == cid)

/-- SELECT of an image row by id. -/
def findImg (s : Store) (iid : Nat) : Option ImageRow :=
  s.images.find? (fun i => i.id == iid)

/-- UPDATE of the conversion rows whose id matches. -/
def updConv (s : Store) (cid : Nat) (f : Conversion → Conversion) : Store :=
  { s with conversions := s.conversions.map (fun c => if c.id = cid then f c else c) }

/-- UPDATE of the image rows matching both the image id and the conversion id,
mirroring the AND condition used by the reorder handler. -/
def updImg (s : Store) (cid iid : Nat) (f : ImageRow → ImageRow) : Store :=
  { s with images := s.images.map (fun i =>
      if i.id = iid ∧ i.conversion_id = cid then f i else i) }

/-- SELECT of all image rows belonging to one conversion. -/
def imagesOf (s : Store) (cid : Nat) : List ImageRow :=
  s.images.filter (fun i => i.conversion_id == cid)

/-- Image rows of a conversion sorted ascending by order index, as returned
by the reorder handler's final SELECT with ORDER BY. -/
def sortedImagesOf (s : Store) (cid : Nat) : List ImageRow :=
  (imagesOf s cid).mergeSort (fun a b => a.order_index ≤ b.order_index)

/-- Handler src/server/src/handlers/create_conversion.ts: inserts a fresh
pending conversion row with the given settings and returns it. -/
def createConversion (s : Store) (ps : PageSize) (ori : Orientation) (now : Nat) :
    Conversion × Store :=
  let c : Conversion :=
    { id := s.nextConvId
      page_size := ps
      orientation := ori
      status := .pending
      pdf_file_path := none
      error_message := none
      created_at := now
      completed_at := none }
  (c, { s with conversions := s.conversions ++ [c], nextConvId := s.nextConvId + 1 })

/-- Handler src/server/src/handlers/update_conversion.ts: partial update of the
page settings of a pending conversion. -/
def updateConversion (s : Store) (cid : Nat) (ps? : Option PageSize) (ori? : Option Orientation) :
    Except String Conversion × Store :=
  match findConv s cid with
  | none => (.error ("Conversion with ID " ++ toString cid ++ " not found"), s)
  | some c =>
    if c.status = .pending then
      if ps? = none ∧ ori? = none then (.ok c, s)
      else
        let f : Conversion → Conversion := fun x =>
          { x with page_size := ps?.getD x.page_size, orientation := ori?.getD x.orientation }
        (.ok (f c), updConv s cid f)
    else
      (.error ("Cannot update conversion with status: " ++ c.status.str ++
        ". Only pending conversions can be updated."), s)

/-- Handler src/server/src/handlers/upload_image.ts: inserts an image row for a
pending conversion and returns it. -/
def uploadImage (s : Store) (now cid : Nat) (nm fp : String) (sz : Nat) (fmt : ImageFormat)
    (idx : Nat) : Except String ImageRow × Store :=
  match findConv s cid with
  | none => (.error ("Conversion with ID " ++ toString cid ++ " not found"), s)
  | some c =>
    if c.status = .pending then
      let img : ImageRow :=
        { id := s.nextImageId
          conversion_id := cid
          original_name := nm
          file_path := fp
          file_size := sz
          format := fmt
          order_index := idx
          uploaded_at := now }
      (.ok img, { s with images := s.images ++ [img], nextImageId := s.nextImageId + 1 })
    else
      (.error ("Cannot upload images to conversion with status: " ++ c.status.str), s)

/-- The sequential UPDATE loop of the reorder handler: each batch entry sets
the order index of the image matching its id within the conversion. -/
def applyOrders (s : Store) (cid : Nat) (orders : List (Nat × Nat)) : Store :=
  orders.foldl (fun acc o => updImg acc cid o.1 (fun i => { i with order_index := o.2 })) s

/-- Handler src/server/src/handlers/reorder_images.ts: validates ownership of
every batch entry, rejects duplicate order indices within the batch, then
applies each index update in sequence and returns the sorted images. -/
def reorderImages (s : Store) (cid : Nat) (orders : List (Nat × Nat)) :
    Except String (List ImageRow) × Store :=
  match findConv s cid with
  | none => (.error ("Conversion with ID " ++ toString cid ++ " not found"), s)
  | some c =>
    if c.status = .pending then
      match orders.find? (fun o => !((imagesOf s cid).map (·.id)).contains o.1) with
      | some o =>
        (.error ("Image with ID " ++ toString o.1 ++ " not found in conversion " ++
          toString cid), s)
      | none =>
        if (orders.map (·.2)).dedup.length ≠ (orders.map (·.2)).length then
          (.error "Duplicate order indices are not allowed", s)
        else
          let s2 := applyOrders s cid orders
          (.ok (sortedImagesOf s2 cid), s2)
    else
      (.error ("Cannot reorder images for conversion in " ++ c.status.str ++
        " status. Only pending conversions can be modified."), s)

/-- Handler src/server/src/handlers/delete_image.ts: looks up the image joined
with its conversion, refuses (returning false) unless the conversion is
pending, then deletes the row and decrements the order index of every image of
the same conversion with a strictly greater index. -/
def deleteImage (s : Store) (iid : Nat) : Bool × Store :=
  match findImg s iid with
  | none => (false, s)
  | some img =>
    match findConv s img.conversion_id with
    | none => (false, s)
    | some c =>
      if c.status = .pending then
        let remaining := s.images.filter (fun i => !(i.id == iid))
        let shifted := remaining.map (fun i =>
          if i.conversion_id = img.conversion_id ∧ img.order_index < i.order_index
          then { i with order_index := i.order_index - 1 } else i)
        (true, { s with images := shifted })
      else (false, s)

/-- The PDF file path produced by the simulated generation step. -/
def pdfPath (cid now : Nat) : String :=
  "/uploads/pdfs/conversion_" ++ toString cid ++ "_" ++ toString now ++ ".pdf"

/-- JS template-literal rendering of a nullable error message. -/
def optMsg : Option String → String
  | none => "null"
  | some m => m

/-- Row update written by process step 2: status processing, stale error
cleared. -/
def procSet (c : Conversion) : Conversion :=
  { c with status := .processing, error_message := none }

/-- Row update written when the conversion owns no images. -/
def noImagesSet (c : Conversion) : Conversion :=
  { c with status := .failed, error_message := some "No images found for conversion" }

/-- Row update written by the completion step. -/
def doneSet (path : String) (now : Nat) (c : Conversion) : Conversion :=
  { c with
    status := .completed
    pdf_file_path := some path
    completed_at := some now
    error_message := none }

/-- Row update written by the catch-block of the process handler. -/
def failSet (e : String) (c : Conversion) : Conversion :=
  { c with status := .failed, error_message := some e }

/-- The try-block of src/server/src/handlers/process_conversion.ts: existence
check, completed short-circuit, failed rejection, transition to processing with
the stale error cleared, zero-image failure, then the (parameterized) PDF
generation step and the completion write. -/
def processTry (s : Store) (cid : Nat) (mat : Except String String) (now : Nat) :
    Except String Conversion × Store :=
  match findConv s cid with
  | none => (.error ("Conversion with id " ++ toString cid ++ " not found"), s)
  | some conversion =>
    if conversion.status = .completed then (.ok conversion, s)
    else if conversion.status = .failed then
      (.error ("Conversion " ++ toString cid ++ " has already failed: " ++
        optMsg conversion.error_message), s)
    else
      let s2 := updConv s cid procSet
      if imagesOf s2 cid = [] then
        (.error "No images found for conversion", updConv s2 cid noImagesSet)
      else
        match mat with
        | .error e => (.error e, s2)
        | .ok path => (.ok (doneSet path now conversion), updConv s2 cid (doneSet path now))

/-- Handler src/server/src/handlers/process_conversion.ts: the try-block
wrapped in the catch that writes status failed with the thrown error's message
into the row before re-raising the error. -/
def processConversion (s : Store) (cid : Nat) (mat : Except String String) (now : Nat) :
    Except String Conversion × Store :=
  match processTry s cid mat now with
  | (.ok c, s1) => (.ok c, s1)
  | (.error e, s1) => (.error e, updConv s1 cid (failSet e))

/-- One RPC call against the store; the timestamps and the PDF generation
outcome are free. -/
inductive Step : Store → Store → Prop
  | create (s : Store) (ps : PageSize) (ori : Orientation) (now : Nat) :
      Step s (createConversion s ps ori now).2
  | update (s : Store) (cid : Nat) (ps? : Option PageSize) (ori? : Option Orientation) :
      Step s (updateConversion s cid ps? ori?).2
  | upload (s : Store) (now cid : Nat) (nm fp : String) (sz : Nat) (fmt : ImageFormat)
      (idx : Nat) : Step s (uploadImage s now cid nm fp sz fmt idx).2
  | reorder (s : Store) (cid : Nat) (orders : List (Nat × Nat)) :
      Step s (reorderImages s cid orders).2
  | delete (s : Store) (iid : Nat) : Step s (deleteImage s iid).2
  | process (s : Store) (cid : Nat) (mat : Except String String) (now : Nat) :
      Step s (processConversion s cid mat now).2

/-- Stores reachable from the empty store by RPC calls. -/
inductive Reachable : Store → Prop
  | empty : Reachable emptyStore
  | step {s s' : Store} : Reachable s → Step s s' → Reachable s'

/-- Row invariant from the spec's data model section: the PDF path is present
exactly on completed rows, and an error message occurs only on failed rows. -/
def Inv (c : Conversion) : Prop :=
  (c.pdf_file_path ≠ none ↔ c.status = .completed) ∧
  (c.error_message ≠ none → c.status = .failed)

/-- Structural well-formedness of the store: row ids are distinct and below
the serial counters. -/
def WF (s : Store) : Prop :=
  (s.conversions.map (·.id)).Nodup ∧ (s.images.map (·.id)).Nodup ∧
  (∀ c ∈ s.conversions, c.id < s.nextConvId) ∧ (∀ i ∈ s.images, i.id < s.nextImageId)

/-- Combined induction hypothesis: structural well-formedness plus the row
invariant on every conversion. -/
def Good (s : Store) : Prop := WF s ∧ ∀ c ∈ s.conversions, Inv c

theorem findConv_mem {s : Store} {cid : Nat} {c : Conversion} (h : findConv s cid = some c) :
    c ∈ s.conversions ∧ c.id = cid := by
  refine ⟨List.mem_of_find?_eq_some h, ?_⟩
  simpa using List.find?_some h

theorem findImg_mem {s : Store} {iid : Nat} {i : ImageRow} (h : findImg s iid = some i) :
    i ∈ s.images ∧ i.id = iid := by
  refine ⟨List.mem_of_find?_eq_some h, ?_⟩
  simpa using List.find?_some h

theorem conv_unique {s : Store} (hnd : (s.conversions.map (·.id)).Nodup)
    {c c' : Conversion} (hc : c ∈ s.conversions) (hc' : c' ∈ s.conversions)
    (h : c.id = c'.id) : c = c' :=
  List.inj_on_of_nodup_map hnd hc hc' h

theorem findConv_eq_of_mem {s : Store} {c : Conversion}
    (hnd : (s.conversions.map (·.id)).Nodup) (hc : c ∈ s.conversions) :
    findConv s c.id = some c := by
  have hs : (s.conversions.find? (fun x => x.id == c.id)).isSome := by
    rw [List.find?_isSome]
    exact ⟨c, hc, by simp⟩
  rcases Option.isSome_iff_exists.mp hs with ⟨c', hc'⟩
  have hmem := List.mem_of_find?_eq_some hc'
  have hid : c'.id = c.id := by simpa using List.find?_some hc'
  have hcc : c' = c := conv_unique hnd hmem hc hid
  rw [findConv, hc', hcc]

theorem updConv_images (s : Store) (cid : Nat) (f : Conversion → Conversion) :
    (updConv s cid f).images = s.images := rfl

theorem updConv_conversions (s : Store) (cid : Nat) (f : Conversion → Conversion) :
    (updConv s cid f).conversions =
      s.conversions.map (fun c => if c.id = cid then f c else c) := rfl

theorem updConv_map_id {f : Conversion → Conversion} (hf : ∀ c, (f c).id = c.id)
    (s : Store) (cid : Nat) :
    (updConv s cid f).conversions.map (·.id) = s.conversions.map (·.id) := by
  rw [updConv_conversions, List.map_map]
  refine List.map_congr_left fun c _ => ?_
  simp only [Function.comp_apply]
  split
  · exact hf c
  · rfl

theorem mem_updConv {s : Store} {cid : Nat} {f : Conversion → Conversion} {c' : Conversion}
    (h : c' ∈ (updConv s cid f).conversions) :
    ∃ c ∈ s.conversions, c' = if c.id = cid then f c else c := by
  rcases List.mem_map.mp h with ⟨c, hc, rfl⟩
  exact ⟨c, hc, rfl⟩

theorem findConv_updConv (f : Conversion → Conversion) (hf : ∀ c, (f c).id = c.id)
    (s : Store) (cid cid' : Nat) :
    findConv (updConv s cid f) cid' =
      (findConv s cid').map (fun c => if c.id = cid then f c else c) := by
  have hpg : ((fun c : Conversion => c.id == cid') ∘ (fun c => if c.id = cid then f c else c))
      = fun c : Conversion => c.id == cid' := by
    funext c
    simp only [Function.comp_apply]
    split
    · rw [hf]
    · rfl
  show List.find? _ (s.conversions.map _) = _
  rw [List.find?_map, hpg]
  rfl

theorem wf_updConv {s : Store} {cid : Nat} {f : Conversion → Conversion}
    (hf : ∀ c, (f c).id = c.id) (h : WF s) : WF (updConv s cid f) := by
  obtain ⟨h1, h2, h3, h4⟩ := h
  refine ⟨?_, h2, ?_, h4⟩
  · rw [updConv_map_id hf]; exact h1
  · intro c hc
    rcases mem_updConv hc with ⟨c0, hc0, rfl⟩
    have : (if c0.id = cid then f c0 else c0).id = c0.id := by
      split
      · exact hf c0
      · rfl
    rw [this]
    exact h3 c0 hc0

theorem inv_updConv {s : Store} {cid : Nat} {f : Conversion → Conversion}
    (hinv : ∀ c ∈ s.conversions, Inv c)
    (hf : ∀ c ∈ s.conversions, c.id = cid → Inv (f c)) :
    ∀ c' ∈ (updConv s cid f).conversions, Inv c' := by
  intro c' hc'
  rcases mem_updConv hc' with ⟨c, hc, rfl⟩
  split
  · exact hf c hc (by assumption)
  · exact hinv c hc

theorem procSet_id (c : Conversion) : (procSet c).id = c.id := rfl

theorem noImagesSet_id (c : Conversion) : (noImagesSet c).id = c.id := rfl

theorem doneSet_id (path : String) (now : Nat) (c : Conversion) :
    (doneSet path now c).id = c.id := rfl

theorem failSet_id (e : String) (c : Conversion) : (failSet e c).id = c.id := rfl

theorem inv_procSet {c : Conversion} (h : c.pdf_file_path = none) : Inv (procSet c) := by
  simp [Inv, procSet, h]

theorem inv_noImagesSet {c : Conversion} (h : c.pdf_file_path = none) : Inv (noImagesSet c) := by
  simp [Inv, noImagesSet, h]

theorem inv_doneSet (path : String) (now : Nat) (c : Conversion) : Inv (doneSet path now c) := by
  simp [Inv, doneSet]

theorem inv_failSet {c : Conversion} (e : String) (h : c.pdf_file_path = none) :
    Inv (failSet e c) := by
  simp [Inv, failSet, h]

/-- Every conversion row carrying the given id has no recorded PDF path. -/
def PdfNoneAt (s : Store) (cid : Nat) : Prop :=
  ∀ c ∈ s.conversions, c.id = cid → c.pdf_file_path = none

theorem pdfNoneAt_updConv {s : Store} {cid : Nat} {f : Conversion → Conversion}
    (hp : ∀ c, (f c).pdf_file_path = c.pdf_file_path)
    (h : PdfNoneAt s cid) : PdfNoneAt (updConv s cid f) cid := by
  intro x hx hxid
  rcases mem_updConv hx with ⟨c0, hc0, rfl⟩
  by_cases h0 : c0.id = cid
  · simp only [h0, if_true] at hxid ⊢
    rw [hp c0]
    exact h c0 hc0 h0
  · rw [if_neg h0] at hxid
    exact absurd hxid h0

theorem findConv_none {s : Store} {cid : Nat} (h : findConv s cid = none) :
    ∀ c ∈ s.conversions, c.id ≠ cid := by
  intro c hc
  have := List.find?_eq_none.mp h c hc
  simpa using this

theorem pdfNoneAt_of_not_completed {s : Store} {cid : Nat} {c : Conversion}
    (hnd : (s.conversions.map (·.id)).Nodup)
    (hinv : ∀ x ∈ s.conversions, Inv x)
    (hfc : findConv s cid = some c) (hnc : ¬c.status = .completed) :
    PdfNoneAt s cid := by
  intro x hx hxid
  obtain ⟨hcmem, hcid⟩ := findConv_mem hfc
  have hxc : x = c := conv_unique hnd hx hcmem (by rw [hxid, hcid])
  subst hxc
  cases hp : x.pdf_file_path with
  | none => rfl
  | some p =>
    exact absurd ((hinv x hx).1.mp (by simp [hp])) hnc

/-- Exhaustive description of the branches of the try-block of the process
handler. -/
theorem processTry_cases (s : Store) (cid : Nat) (mat : Except String String) (now : Nat) :
    (findConv s cid = none ∧
      processTry s cid mat now =
        (.error ("Conversion with id " ++ toString cid ++ " not found"), s)) ∨
    (∃ c, findConv s cid = some c ∧ c.status = .completed ∧
      processTry s cid mat now = (.ok c, s)) ∨
    (∃ c, findConv s cid = some c ∧ c.status = .failed ∧
      processTry s cid mat now =
        (.error ("Conversion " ++ toString cid ++ " has already failed: " ++
          optMsg c.error_message), s)) ∨
    (∃ c, findConv s cid = some c ∧ ¬c.status = .completed ∧ ¬c.status = .failed ∧
      ((imagesOf (updConv s cid procSet) cid = [] ∧
        processTry s cid mat now =
          (.error "No images found for conversion",
            updConv (updConv s cid procSet) cid noImagesSet)) ∨
      (¬imagesOf (updConv s cid procSet) cid = [] ∧ ∃ e, mat = .error e ∧
        processTry s cid mat now = (.error e, updConv s cid procSet)) ∨
      (¬imagesOf (updConv s cid procSet) cid = [] ∧ ∃ path, mat = .ok path ∧
        processTry s cid mat now =
          (.ok (doneSet path now c), updConv (updConv s cid procSet) cid (doneSet path now))))) := by
  cases hfc : findConv s cid with
  | none =>
    exact Or.inl ⟨rfl, by simp [processTry, hfc]⟩
  | some c =>
    by_cases h1 : c.status = .completed
    · exact Or.inr (Or.inl ⟨c, rfl, h1, by simp [processTry, hfc, h1]⟩)
    · by_cases h2 : c.status = .failed
      · exact Or.inr (Or.inr (Or.inl ⟨c, rfl, h2, by simp [processTry, hfc, h1, h2]⟩))
      · refine Or.inr (Or.inr (Or.inr ⟨c, rfl, h1, h2, ?_⟩))
        by_cases h3 : imagesOf (updConv s cid procSet) cid = []
        · exact Or.inl ⟨h3, by simp [processTry, hfc, h1, h2, h3]⟩
        · cases hm : mat with
          | error e =>
            exact Or.inr (Or.inl ⟨h3, e, rfl, by simp [processTry, hfc, h1, h2, h3, hm]⟩)
          | ok path =>
            exact Or.inr (Or.inr ⟨h3, path, rfl, by simp [processTry, hfc, h1, h2, h3, hm]⟩)

theorem processTry_error_good {s : Store} (h : Good s) {cid : Nat} {mat : Except String String}
    {now : Nat} {e : String} {s1 : Store}
    (heq : processTry s cid mat now = (.error e, s1)) : Good s1 ∧ PdfNoneAt s1 cid := by
  obtain ⟨⟨h1, h2, h3, h4⟩, hinv⟩ := h
  rcases processTry_cases s cid mat now with ⟨hfc, hpt⟩ | ⟨c, hfc, hst, hpt⟩ |
    ⟨c, hfc, hst, hpt⟩ | ⟨c, hfc, hnc, hnf, hrest⟩
  · rw [heq] at hpt
    have hs : s1 = s := congrArg Prod.snd hpt
    subst hs
    refine ⟨⟨⟨h1, h2, h3, h4⟩, hinv⟩, ?_⟩
    intro x hx hxid
    exact absurd hxid (findConv_none hfc x hx)
  · rw [heq] at hpt
    exact absurd (congrArg Prod.fst hpt) (by simp)
  · rw [heq] at hpt
    have hs : s1 = s := congrArg Prod.snd hpt
    subst hs
    refine ⟨⟨⟨h1, h2, h3, h4⟩, hinv⟩, ?_⟩
    exact pdfNoneAt_of_not_completed h1 hinv hfc (by rw [hst]; simp)
  · have hbase : PdfNoneAt s cid := pdfNoneAt_of_not_completed h1 hinv hfc hnc
    have hgood2 : Good (updConv s cid procSet) :=
      ⟨wf_updConv (fun c => rfl) ⟨h1, h2, h3, h4⟩,
        inv_updConv hinv (fun x hx hxid => inv_procSet (hbase x hx hxid))⟩
    have hpdf2 : PdfNoneAt (updConv s cid procSet) cid :=
      pdfNoneAt_updConv (fun c => rfl) hbase
    rcases hrest with ⟨him, hpt⟩ | ⟨him, e', hm, hpt⟩ | ⟨him, path, hm, hpt⟩
    · rw [heq] at hpt
      have hs : s1 = updConv (updConv s cid procSet) cid noImagesSet :=
        congrArg Prod.snd hpt
      subst hs
      refine ⟨⟨wf_updConv (fun c => rfl) hgood2.1,
        inv_updConv hgood2.2 (fun x hx hxid => inv_noImagesSet (hpdf2 x hx hxid))⟩, ?_⟩
      exact pdfNoneAt_updConv (fun c => rfl) hpdf2
    · rw [heq] at hpt
      have hs : s1 = updConv s cid procSet := congrArg Prod.snd hpt
      subst hs
      exact ⟨hgood2, hpdf2⟩
    · rw [heq] at hpt
      exact absurd (congrArg Prod.fst hpt) (by simp)

theorem processTry_ok_good {s : Store} (h : Good s) {cid : Nat} {mat : Except String String}
    {now : Nat} {c0 : Conversion} {s1 : Store}
    (heq : processTry s cid mat now = (.ok c0, s1)) : Good s1 := by
  obtain ⟨⟨h1, h2, h3, h4⟩, hinv⟩ := h
  rcases processTry_cases s cid mat now with ⟨hfc, hpt⟩ | ⟨c, hfc, hst, hpt⟩ |
    ⟨c, hfc, hst, hpt⟩ | ⟨c, hfc, hnc, hnf, hrest⟩
  · rw [heq] at hpt
    exact absurd (congrArg Prod.fst hpt) (by simp)
  · rw [heq] at hpt
    have hs : s1 = s := congrArg Prod.snd hpt
    subst hs
    exact ⟨⟨h1, h2, h3, h4⟩, hinv⟩
  · rw [heq] at hpt
    exact absurd (congrArg Prod.fst hpt) (by simp)
  · have hbase : PdfNoneAt s cid := pdfNoneAt_of_not_completed h1 hinv hfc hnc
    have hgood2 : Good (updConv s cid procSet) :=
      ⟨wf_updConv (fun c => rfl) ⟨h1, h2, h3, h4⟩,
        inv_updConv hinv (fun x hx hxid => inv_procSet (hbase x hx hxid))⟩
    rcases hrest with ⟨him, hpt⟩ | ⟨him, e', hm, hpt⟩ | ⟨him, path, hm, hpt⟩
    · rw [heq] at hpt
      exact absurd (congrArg Prod.fst hpt) (by simp)
    · rw [heq] at hpt
      exact absurd (congrArg Prod.fst hpt) (by simp)
    · rw [heq] at hpt
      have hs : s1 = updConv (updConv s cid procSet) cid (doneSet path now) :=
        congrArg Prod.snd hpt
      subst hs
      exact ⟨wf_updConv (fun c => rfl) hgood2.1,
        inv_updConv hgood2.2 (fun x hx _ => inv_doneSet path now x)⟩

theorem good_process {s : Store} (h : Good s) (cid : Nat) (mat : Except String String)
    (now : Nat) : Good (processConversion s cid mat now).2 := by
  rcases hpt : processTry s cid mat now with ⟨r, s1⟩
  cases r with
  | ok c =>
    have hred : processConversion s cid mat now = (.ok c, s1) := by
      simp [processConversion, hpt]
    rw [hred]
    exact processTry_ok_good h hpt
  | error e =>
    have hred : processConversion s cid mat now = (.error e, updConv s1 cid (failSet e)) := by
      simp [processConversion, hpt]
    rw [hred]
    obtain ⟨⟨g1, g2, g3, g4⟩, ginv⟩ := (processTry_error_good h hpt).1
    have gpdf := (processTry_error_good h hpt).2
    exact ⟨wf_updConv (fun c => rfl) ⟨g1, g2, g3, g4⟩,
      inv_updConv ginv (fun x hx hxid => inv_failSet e (gpdf x hx hxid))⟩

theorem good_insert_conv {s : Store} (h : Good s) {c : Conversion} (hid : c.id = s.nextConvId)
    (hc : Inv c) :
    Good { s with conversions := s.conversions ++ [c], nextConvId := s.nextConvId + 1 } := by
  obtain ⟨⟨h1, h2, h3, h4⟩, hinv⟩ := h
  refine ⟨⟨?_, h2, ?_, h4⟩, ?_⟩
  · rw [List.map_append, List.nodup_append]
    refine ⟨h1, by simp, ?_⟩
    intro a ha hb
    rcases List.mem_map.mp ha with ⟨c0, hc0, rfl⟩
    simp only [List.map_cons, List.map_nil, List.mem_singleton] at hb
    have := h3 c0 hc0
    omega
  · intro x hx
    show x.id < s.nextConvId + 1
    rcases List.mem_append.mp hx with hx | hx
    · have := h3 x hx
      omega
    · simp only [List.mem_singleton] at hx
      subst hx
      omega
  · intro x hx
    rcases List.mem_append.mp hx with hx | hx
    · exact hinv x hx
    · simp only [List.mem_singleton] at hx
      subst hx
      exact hc

theorem good_create {s : Store} (h : Good s) (ps : PageSize) (ori : Orientation) (now : Nat) :
    Good (createConversion s ps ori now).2 :=
  good_insert_conv h rfl (by simp [Inv])

theorem good_update {s : Store} (h : Good s) (cid : Nat) (ps? : Option PageSize)
    (ori? : Option Orientation) : Good (updateConversion s cid ps? ori?).2 := by
  cases hfc : findConv s cid with
  | none =>
    have hred : (updateConversion s cid ps? ori?).2 = s := by
      simp [updateConversion, hfc]
    rw [hred]
    exact h
  | some c =>
    by_cases hst : c.status = .pending
    · by_cases hempty : ps? = none ∧ ori? = none
      · have hred : (updateConversion s cid ps? ori?).2 = s := by
          simp [updateConversion, hfc, hst, hempty.1, hempty.2]
        rw [hred]
        exact h
      · have hred : (updateConversion s cid ps? ori?).2 = updConv s cid (fun x =>
            { x with page_size := ps?.getD x.page_size,
                     orientation := ori?.getD x.orientation }) := by
          simp only [updateConversion, hfc, hst, if_true]
          rw [if_neg hempty]
        rw [hred]
        refine ⟨wf_updConv (fun x => rfl) h.1, inv_updConv h.2 ?_⟩
        intro x hx _
        have hx2 := h.2 x hx
        exact ⟨hx2.1, hx2.2⟩
    · have hred : (updateConversion s cid ps? ori?).2 = s := by
        simp [updateConversion, hfc, hst]
      rw [hred]
      exact h

theorem good_insert_img {s : Store} (h : Good s) {i : ImageRow} (hid : i.id = s.nextImageId) :
    Good { s with images := s.images ++ [i], nextImageId := s.nextImageId + 1 } := by
  obtain ⟨⟨h1, h2, h3, h4⟩, hinv⟩ := h
  refine ⟨⟨h1, ?_, h3, ?_⟩, hinv⟩
  · rw [List.map_append, List.nodup_append]
    refine ⟨h2, by simp, ?_⟩
    intro a ha hb
    rcases List.mem_map.mp ha with ⟨i0, hi0, rfl⟩
    simp only [List.map_cons, List.map_nil, List.mem_singleton] at hb
    have := h4 i0 hi0
    omega
  · intro x hx
    show x.id < s.nextImageId + 1
    rcases List.mem_append.mp hx with hx | hx
    · have := h4 x hx
      omega
    · simp only [List.mem_singleton] at hx
      subst hx
      omega

theorem good_upload {s : Store} (h : Good s) (now cid : Nat) (nm fp : String) (sz : Nat)
    (fmt : ImageFormat) (idx : Nat) : Good (uploadImage s now cid nm fp sz fmt idx).2 := by
  cases hfc : findConv s cid with
  | none =>
    have hred : (uploadImage s now cid nm fp sz fmt idx).2 = s := by
      simp [uploadImage, hfc]
    rw [hred]
    exact h
  | some c =>
    by_cases hst : c.status = .pending
    · have hred : (uploadImage s now cid nm fp sz fmt idx).2 =
          { s with
            images := s.images ++ [{ id := s.nextImageId, conversion_id := cid, original_name := nm, file_path := fp, file_size := sz, format := fmt, order_index := idx, uploaded_at := now }]
            nextImageId := s.nextImageId + 1 } := by
        simp [uploadImage, hfc, hst]
      rw [hred]
      exact good_insert_img h rfl
    · have hred : (uploadImage s now cid nm fp sz fmt idx).2 = s := by
        simp [uploadImage, hfc, hst]
      rw [hred]
      exact h

theorem applyOrders_cons (s : Store) (cid : Nat) (o : Nat × Nat) (os : List (Nat × Nat)) :
    applyOrders s cid (o :: os) =
      applyOrders (updImg s cid o.1 (fun i => { i with order_index := o.2 })) cid os := rfl

theorem applyOrders_conversions (s : Store) (cid : Nat) (orders : List (Nat × Nat)) :
    (applyOrders s cid orders).conversions = s.conversions := by
  induction orders generalizing s with
  | nil => rfl
  | cons o os ih =>
    rw [applyOrders_cons, ih]
    rfl

theorem applyOrders_nextConvId (s : Store) (cid : Nat) (orders : List (Nat × Nat)) :
    (applyOrders s cid orders).nextConvId = s.nextConvId := by
  induction orders generalizing s with
  | nil => rfl
  | cons o os ih =>
    rw [applyOrders_cons, ih]
    rfl

theorem applyOrders_nextImageId (s : Store) (cid : Nat) (orders : List (Nat × Nat)) :
    (applyOrders s cid orders).nextImageId = s.nextImageId := by
  induction orders generalizing s with
  | nil => rfl
  | cons o os ih =>
    rw [applyOrders_cons, ih]
    rfl

theorem updImg_images (s : Store) (cid iid : Nat) (f : ImageRow → ImageRow) :
    (updImg s cid iid f).images =
      s.images.map (fun i => if i.id = iid ∧ i.conversion_id = cid then f i else i) := rfl

theorem updImg_images_map_id (s : Store) (cid iid : Nat) {f : ImageRow → ImageRow}
    (hf : ∀ i, (f i).id = i.id) :
    (updImg s cid iid f).images.map (·.id) = s.images.map (·.id) := by
  rw [updImg_images, List.map_map]
  refine List.map_congr_left fun i _ => ?_
  simp only [Function.comp_apply]
  split
  · exact hf i
  · rfl

theorem applyOrders_images_map_id (s : Store) (cid : Nat) (orders : List (Nat × Nat)) :
    (applyOrders s cid orders).images.map (·.id) = s.images.map (·.id) := by
  induction orders generalizing s with
  | nil => rfl
  | cons o os ih =>
    rw [applyOrders_cons, ih, updImg_images_map_id]
    intro i
    rfl

theorem good_applyOrders {s : Store} (h : Good s) (cid : Nat) (orders : List (Nat × Nat)) :
    Good (applyOrders s cid orders) := by
  obtain ⟨⟨h1, h2, h3, h4⟩, hinv⟩ := h
  refine ⟨⟨?_, ?_, ?_, ?_⟩, ?_⟩
  · rw [applyOrders_conversions]
    exact h1
  · rw [applyOrders_images_map_id]
    exact h2
  · intro c hc
    rw [applyOrders_conversions] at hc
    rw [applyOrders_nextConvId]
    exact h3 c hc
  · intro i hi
    rw [applyOrders_nextImageId]
    have hmm : i.id ∈ (applyOrders s cid orders).images.map (·.id) :=
      List.mem_map_of_mem _ hi
    rw [applyOrders_images_map_id] at hmm
    rcases List.mem_map.mp hmm with ⟨j, hj, hji⟩
    rw [← hji]
    exact h4 j hj
  · intro c hc
    rw [applyOrders_conversions] at hc
    exact hinv c hc

theorem good_reorder {s : Store} (h : Good s) (cid : Nat) (orders : List (Nat × Nat)) :
    Good (reorderImages s cid orders).2 := by
  cases hfc : findConv s cid with
  | none =>
    have hred : (reorderImages s cid orders).2 = s := by
      simp [reorderImages, hfc]
    rw [hred]
    exact h
  | some c =>
    by_cases hst : c.status = .pending
    · cases hrd : orders.find? (fun o => !((imagesOf s cid).map (·.id)).contains o.1) with
      | some o =>
        have hred : (reorderImages s cid orders).2 = s := by
          simp only [reorderImages, hfc]
          rw [if_pos hst, hrd]
        rw [hred]
        exact h
      | none =>
        by_cases hdup : (orders.map (·.2)).dedup.length ≠ (orders.map (·.2)).length
        · have hred : (reorderImages s cid orders).2 = s := by
            simp only [reorderImages, hfc]
            rw [if_pos hst, hrd, if_pos hdup]
          rw [hred]
          exact h
        · have hred : (reorderImages s cid orders).2 = applyOrders s cid orders := by
            simp only [reorderImages, hfc]
            rw [if_pos hst, hrd, if_neg hdup]
          rw [hred]
          exact good_applyOrders h cid orders
    · have hred : (reorderImages s cid orders).2 = s := by
        simp [reorderImages, hfc, hst]
      rw [hred]
      exact h

theorem good_shift {s : Store} (h : Good s) (iid : Nat) (img : ImageRow) :
    Good { s with images := (s.images.filter (fun i => !(i.id == iid))).map (fun i =>
      if i.conversion_id = img.conversion_id ∧ img.order_index < i.order_index
      then { i with order_index := i.order_index - 1 } else i) } := by
  obtain ⟨⟨h1, h2, h3, h4⟩, hinv⟩ := h
  have hids : ((s.images.filter (fun i => !(i.id == iid))).map (fun i =>
      if i.conversion_id = img.conversion_id ∧ img.order_index < i.order_index
      then { i with order_index := i.order_index - 1 } else i)).map (·.id) =
      (s.images.filter (fun i => !(i.id == iid))).map (·.id) := by
    rw [List.map_map]
    refine List.map_congr_left fun i _ => ?_
    simp only [Function.comp_apply]
    split
    · rfl
    · rfl
  refine ⟨⟨h1, ?_, h3, ?_⟩, hinv⟩
  · have hnd : List.Nodup (((s.images.filter (fun i => !(i.id == iid))).map (fun i =>
        if i.conversion_id = img.conversion_id ∧ img.order_index < i.order_index
        then { i with order_index := i.order_index - 1 } else i)).map (·.id)) := by
      rw [hids]
      exact List.Sublist.nodup (List.Sublist.map _ (List.filter_sublist _)) h2
    exact hnd
  · intro i hi
    show i.id < s.nextImageId
    rcases List.mem_map.mp hi with ⟨j, hjf, rfl⟩
    have hj : j ∈ s.images := List.mem_of_mem_filter hjf
    have hjid : (if j.conversion_id = img.conversion_id ∧ img.order_index < j.order_index
        then { j with order_index := j.order_index - 1 } else j).id = j.id := by
      split
      · rfl
      · rfl
    rw [hjid]
    exact h4 j hj

theorem good_delete {s : Store} (h : Good s) (iid : Nat) : Good (deleteImage s iid).2 := by
  cases hfi : findImg s iid with
  | none =>
    have hred : (deleteImage s iid).2 = s := by
      simp [deleteImage, hfi]
    rw [hred]
    exact h
  | some img =>
    cases hfc : findConv s img.conversion_id with
    | none =>
      have hred : (deleteImage s iid).2 = s := by
        simp [deleteImage, hfi, hfc]
      rw [hred]
      exact h
    | some c =>
      by_cases hst : c.status = .pending
      · have hred : (deleteImage s iid).2 = { s with
            images := (s.images.filter (fun i => !(i.id == iid))).map (fun i =>
              if i.conversion_id = img.conversion_id ∧ img.order_index < i.order_index
              then { i with order_index := i.order_index - 1 } else i) } := by
          simp [deleteImage, hfi, hfc, hst]
        rw [hred]
        exact good_shift h iid img
      · have hred : (deleteImage s iid).2 = s := by
          simp [deleteImage, hfi, hfc, hst]
        rw [hred]
        exact h

theorem good_step {s s' : Store} (h : Good s) (hstep : Step s s') : Good s' := by
  cases hstep with
  | create ps ori now => exact good_create h ps ori now
  | update cid ps? ori? => exact good_update h cid ps? ori?
  | upload now cid nm fp sz fmt idx => exact good_upload h now cid nm fp sz fmt idx
  | reorder cid orders => exact good_reorder h cid orders
  | delete iid => exact good_delete h iid
  | process cid mat now => exact good_process h cid mat now

theorem good_empty : Good emptyStore := by
  refine ⟨⟨?_, ?_, ?_, ?_⟩, ?_⟩ <;> simp [emptyStore, WF]

theorem good_reachable {s : Store} (h : Reachable s) : Good s := by
  induction h with
  | empty => exact good_empty
  | step _ hstep ih => exact good_step ih hstep

theorem imagesOf_updConv (s : Store) (cid0 : Nat) (f : Conversion → Conversion) (cid : Nat) :
    imagesOf (updConv s cid0 f) cid = imagesOf s cid := rfl

theorem updConv_rows_at {s : Store} {cid : Nat} {f : Conversion → Conversion} {x : Conversion}
    (hx : x ∈ (updConv s cid f).conversions) (hfid : ∀ c, (f c).id = c.id)
    (hxid : x.id = cid) : ∃ c0 ∈ s.conversions, c0.id = cid ∧ x = f c0 := by
  rcases mem_updConv hx with ⟨c0, hc0, rfl⟩
  by_cases h0 : c0.id = cid
  · exact ⟨c0, hc0, h0, by rw [if_pos h0]⟩
  · rw [if_neg h0] at hxid
    exact absurd hxid h0

theorem updConv_exists_at {s : Store} {cid : Nat} (f : Conversion → Conversion)
    (hfid : ∀ c, (f c).id = c.id) (h : ∃ x ∈ s.conversions, x.id = cid) :
    ∃ x ∈ (updConv s cid f).conversions, x.id = cid := by
  rcases h with ⟨x, hx, hxid⟩
  refine ⟨if x.id = cid then f x else x, List.mem_map_of_mem _ hx, ?_⟩
  rw [if_pos hxid, hfid, hxid]

theorem processTry_exists_at {s : Store} {cid : Nat} (mat : Except String String) (now : Nat)
    (hex : ∃ x ∈ s.conversions, x.id = cid) :
    ∃ x ∈ (processTry s cid mat now).2.conversions, x.id = cid := by
  rcases processTry_cases s cid mat now with ⟨hfc, hpt⟩ | ⟨c, hfc, hst, hpt⟩ |
    ⟨c, hfc, hst, hpt⟩ | ⟨c, hfc, hnc, hnf, hrest⟩
  · rw [hpt]
    exact hex
  · rw [hpt]
    exact hex
  · rw [hpt]
    exact hex
  · rcases hrest with ⟨him, hpt⟩ | ⟨him, e', hm, hpt⟩ | ⟨him, path, hm, hpt⟩
    · rw [hpt]
      exact updConv_exists_at _ (fun c => rfl) (updConv_exists_at _ (fun c => rfl) hex)
    · rw [hpt]
      exact updConv_exists_at _ (fun c => rfl) hex
    · rw [hpt]
      exact updConv_exists_at _ (fun c => rfl) (updConv_exists_at _ (fun c => rfl) hex)

/-- Concrete pending conversion used by the witnesses. -/
def wConvPending : Conversion := ⟨1, .a4, .portrait, .pending, none, none, 0, none⟩

/-- Concrete completed conversion used by the witnesses. -/
def wConvCompleted : Conversion :=
  ⟨1, .a4, .portrait, .completed, some "/uploads/pdfs/conversion_1_5.pdf", none, 0, some 5⟩

/-- Concrete failed conversion used by the witnesses. -/
def wConvFailed : Conversion := ⟨1, .a4, .portrait, .failed, none, some "boom", 0, none⟩

/-- Concrete image row of conversion 1 used by the witnesses. -/
def wImg (iid idx : Nat) : ImageRow := ⟨iid, 1, "a.png", "/u/a.png", 3, .png, idx, 0⟩

/-- Store holding one pending conversion without images. -/
def sPending0 : Store := ⟨[wConvPending], [], 2, 10⟩

/-- Store holding one pending conversion with two images. -/
def sPending2 : Store := ⟨[wConvPending], [wImg 10 0, wImg 11 1], 2, 12⟩

/-- Store holding one completed conversion with one image. -/
def sCompleted : Store := ⟨[wConvCompleted], [wImg 10 0], 2, 12⟩

/-- Store holding one failed conversion. -/
def sFailed : Store := ⟨[wConvFailed], [], 2, 12⟩

/-- C1: in every store reachable from the empty store by any sequence of the
six RPC operations, every conversion row has a non-null pdf_file_path exactly
when its status is completed, and a non-null error_message only when its
status is failed. -/
theorem reachable_row_invariant (s : Store) (h : Reachable s) :
    ∀ c ∈ s.conversions,
      (c.pdf_file_path ≠ none ↔ c.status = .completed) ∧
      (c.error_message ≠ none → c.status = .failed) :=
  (good_reachable h).2

/-- Witness for C1 at the store reached by one createConversion call. -/
theorem reachable_row_invariant_witness :
    (wConvPending.pdf_file_path ≠ none ↔ wConvPending.status = .completed) ∧
    (wConvPending.error_message ≠ none → wConvPending.status = .failed) :=
  reachable_row_invariant (createConversion emptyStore .a4 .portrait 0).2
    (Reachable.step Reachable.empty (Step.create emptyStore .a4 .portrait 0))
    wConvPending (by decide)

/-- C7: processConversion on a completed conversion returns the stored row and
leaves the store untouched whatever the materializer would do; consequently a
second call after any successful call returns the same row, with the same
pdf_file_path, and the same store, without invoking the materializer again. -/
theorem process_completed_idempotent :
    (∀ s cid mat now c, findConv s cid = some c → c.status = .completed →
      processConversion s cid mat now = (.ok c, s)) ∧
    (∀ s cid mat now mat2 now2 c1 s1, processConversion s cid mat now = (.ok c1, s1) →
      processConversion s1 cid mat2 now2 = (.ok c1, s1)) := by
  have hpart1 : ∀ s cid mat now c, findConv s cid = some c → c.status = .completed →
      processConversion s cid mat now = (.ok c, s) := by
    intro s cid mat now c hfc hst
    have hpt : processTry s cid mat now = (.ok c, s) := by
      simp [processTry, hfc, hst]
    simp [processConversion, hpt]
  refine ⟨hpart1, ?_⟩
  intro s cid mat now mat2 now2 c1 s1 heq
  have hpt : processTry s cid mat now = (.ok c1, s1) := by
    rcases hpt : processTry s cid mat now with ⟨r, sx⟩
    cases r with
    | ok c' =>
      have : processConversion s cid mat now = (.ok c', sx) := by
        simp [processConversion, hpt]
      rw [this] at heq
      have hval : c' = c1 := by
        have := congrArg Prod.fst heq
        simpa using this
      have hsx : sx = s1 := congrArg Prod.snd heq
      rw [hval, hsx]
    | error e =>
      have : processConversion s cid mat now = (.error e, updConv sx cid (failSet e)) := by
        simp [processConversion, hpt]
      rw [this] at heq
      exact absurd (congrArg Prod.fst heq) (by simp)
  rcases processTry_cases s cid mat now with ⟨hfc, hpt2⟩ | ⟨c, hfc, hst, hpt2⟩ |
    ⟨c, hfc, hst, hpt2⟩ | ⟨c, hfc, hnc, hnf, hrest⟩
  · rw [hpt] at hpt2
    exact absurd (congrArg Prod.fst hpt2) (by simp)
  · rw [hpt] at hpt2
    have hval : c1 = c := by
      have := congrArg Prod.fst hpt2
      simpa using this
    have hs : s1 = s := congrArg Prod.snd hpt2
    subst hval
    subst hs
    exact hpart1 s1 cid mat2 now2 c1 hfc hst
  · rw [hpt] at hpt2
    exact absurd (congrArg Prod.fst hpt2) (by simp)
  · rcases hrest with ⟨him, hpt2⟩ | ⟨him, e', hm, hpt2⟩ | ⟨him, path, hm, hpt2⟩
    · rw [hpt] at hpt2
      exact absurd (congrArg Prod.fst hpt2) (by simp)
    · rw [hpt] at hpt2
      exact absurd (congrArg Prod.fst hpt2) (by simp)
    · rw [hpt] at hpt2
      have hval : c1 = doneSet path now c := by
        have := congrArg Prod.fst hpt2
        simpa using this
      have hs : s1 = updConv (updConv s cid procSet) cid (doneSet path now) :=
        congrArg Prod.snd hpt2
      have hcid : c.id = cid := (findConv_mem hfc).2
      have hfind1 : findConv s1 cid = some (doneSet path now (procSet c)) := by
        rw [hs, findConv_updConv (doneSet path now) (fun x => rfl),
          findConv_updConv procSet (fun x => rfl), hfc]
        simp [procSet_id, hcid]
      have hcomp : doneSet path now (procSet c) = doneSet path now c := by
        cases c
        rfl
      rw [hcomp] at hfind1
      have := hpart1 s1 cid mat2 now2 (doneSet path now c) hfind1 rfl
      rw [hval, hs]
      rw [hs] at this
      exact this

/-- Witness for C7 on a concrete completed conversion. -/
theorem process_completed_idempotent_witness :
    processConversion sCompleted 1 (.ok "other.pdf") 99 = (.ok wConvCompleted, sCompleted) :=
  process_completed_idempotent.1 sCompleted 1 (.ok "other.pdf") 99 wConvCompleted rfl rfl

/-- C8: deleteImage returns false and leaves the store unchanged both when the
image id does not exist and when the owning conversion is not pending. -/
theorem delete_sentinel :
    (∀ s iid, findImg s iid = none → deleteImage s iid = (false, s)) ∧
    (∀ s iid img c, findImg s iid = some img → findConv s img.conversion_id = some c →
      ¬c.status = .pending → deleteImage s iid = (false, s)) := by
  constructor
  · intro s iid h
    simp [deleteImage, h]
  · intro s iid img c hfi hfc hst
    simp [deleteImage, hfi, hfc, hst]

/-- Witness for C8: a missing id and an image of a completed conversion. -/
theorem delete_sentinel_witness :
    deleteImage sCompleted 77 = (false, sCompleted) ∧
    deleteImage sCompleted 10 = (false, sCompleted) :=
  ⟨delete_sentinel.1 sCompleted 77 rfl,
   delete_sentinel.2 sCompleted 10 (wImg 10 0) wConvCompleted rfl rfl (by decide)⟩

/-- C3: processConversion on a pending conversion without images records
status failed with exactly the message "No images found for conversion" and
raises that error; and on an already failed conversion it raises an error
carrying the stored error message. -/
theorem process_no_images_and_already_failed :
    (∀ s cid mat now c, findConv s cid = some c → c.status = .pending →
      imagesOf s cid = [] →
      (processConversion s cid mat now).1 = .error "No images found for conversion" ∧
      (∃ x ∈ (processConversion s cid mat now).2.conversions, x.id = cid) ∧
      ∀ x ∈ (processConversion s cid mat now).2.conversions, x.id = cid →
        x.status = .failed ∧ x.error_message = some "No images found for conversion") ∧
    (∀ s cid mat now c, findConv s cid = some c → c.status = .failed →
      (processConversion s cid mat now).1 =
        .error ("Conversion " ++ toString cid ++ " has already failed: " ++
          optMsg c.error_message)) := by
  constructor
  · intro s cid mat now c hfc hst himgs
    have himgs2 : imagesOf (updConv s cid procSet) cid = [] := by
      rw [imagesOf_updConv]
      exact himgs
    have hpt : processTry s cid mat now =
        (.error "No images found for conversion",
          updConv (updConv s cid procSet) cid noImagesSet) := by
      simp [processTry, hfc, hst, himgs2]
    have hred : processConversion s cid mat now =
        (.error "No images found for conversion",
          updConv (updConv (updConv s cid procSet) cid noImagesSet) cid
            (failSet "No images found for conversion")) := by
      simp [processConversion, hpt]
    rw [hred]
    refine ⟨rfl, ?_, ?_⟩
    · refine updConv_exists_at _ (fun x => rfl) (updConv_exists_at _ (fun x => rfl)
        (updConv_exists_at _ (fun x => rfl) ?_))
      exact ⟨c, (findConv_mem hfc).1, (findConv_mem hfc).2⟩
    · intro x hx hxid
      rcases updConv_rows_at hx (fun x => rfl) hxid with ⟨c0, hc0, hc0id, rfl⟩
      exact ⟨rfl, rfl⟩
  · intro s cid mat now c hfc hst
    have hpt : processTry s cid mat now =
        (.error ("Conversion " ++ toString cid ++ " has already failed: " ++
          optMsg c.error_message), s) := by
      have hnc : ¬c.status = .completed := by
        rw [hst]
        simp
      simp [processTry, hfc, hnc, hst]
    simp [processConversion, hpt]

/-- Witness for C3 at a pending conversion without images, then the same
conversion after that failure. -/
theorem process_no_images_and_already_failed_witness :
    (processConversion sPending0 1 (.ok "p.pdf") 3).1 =
      .error "No images found for conversion" ∧
    (processConversion sFailed 1 (.ok "p.pdf") 3).1 =
      .error "Conversion 1 has already failed: boom" :=
  ⟨(process_no_images_and_already_failed.1 sPending0 1 (.ok "p.pdf") 3 wConvPending
      rfl rfl rfl).1,
   process_no_images_and_already_failed.2 sFailed 1 (.ok "p.pdf") 3 wConvFailed rfl rfl⟩

/-- C2: if processConversion passes the pending check and the PDF generation
step then throws, the handler records status failed with the thrown error
message on that conversion's row and re-raises the same error. -/
theorem process_materializer_failure (s : Store) (cid now : Nat) (e : String)
    (c : Conversion) (hfc : findConv s cid = some c) (hst : c.status = .pending)
    (himgs : ¬imagesOf s cid = []) :
    (processConversion s cid (.error e) now).1 = .error e ∧
    (∃ x ∈ (processConversion s cid (.error e) now).2.conversions, x.id = cid) ∧
    ∀ x ∈ (processConversion s cid (.error e) now).2.conversions, x.id = cid →
      x.status = .failed ∧ x.error_message = some e := by
  have himgs2 : ¬imagesOf (updConv s cid procSet) cid = [] := by
    rw [imagesOf_updConv]
    exact himgs
  have hpt : processTry s cid (.error e) now = (.error e, updConv s cid procSet) := by
    simp [processTry, hfc, hst, himgs2]
  have hred : processConversion s cid (.error e) now =
      (.error e, updConv (updConv s cid procSet) cid (failSet e)) := by
    simp [processConversion, hpt]
  rw [hred]
  refine ⟨rfl, ?_, ?_⟩
  · exact updConv_exists_at _ (fun x => rfl) (updConv_exists_at _ (fun x => rfl)
      ⟨c, (findConv_mem hfc).1, (findConv_mem hfc).2⟩)
  · intro x hx hxid
    rcases updConv_rows_at hx (fun x => rfl) hxid with ⟨c0, hc0, hc0id, rfl⟩
    exact ⟨rfl, rfl⟩

/-- Witness for C2 on a pending conversion with two images and a throwing
generation step. -/
theorem process_materializer_failure_witness :
    (processConversion sPending2 1 (.error "disk full") 3).1 = .error "disk full" ∧
    (∃ x ∈ (processConversion sPending2 1 (.error "disk full") 3).2.conversions, x.id = 1) ∧
    ∀ x ∈ (processConversion sPending2 1 (.error "disk full") 3).2.conversions, x.id = 1 →
      x.status = .failed ∧ x.error_message = some "disk full" :=
  process_materializer_failure sPending2 1 3 "disk full" wConvPending rfl rfl (by decide)

/-- C9: whenever processConversion raises any error on a conversion id that is
present in the store, the catch-block leaves that row with status failed and
error_message equal to the raised error's message; in particular a process
call on an already failed conversion overwrites the stored message with the
AlreadyFailed text. -/
theorem process_error_means_failed_row (s : Store) (cid : Nat)
    (mat : Except String String) (now : Nat) (e : String)
    (hex : ∃ x ∈ s.conversions, x.id = cid)
    (herr : (processConversion s cid mat now).1 = .error e) :
    (∃ x ∈ (processConversion s cid mat now).2.conversions, x.id = cid) ∧
    ∀ x ∈ (processConversion s cid mat now).2.conversions, x.id = cid →
      x.status = .failed ∧ x.error_message = some e := by
  rcases hpt : processTry s cid mat now with ⟨r, s1⟩
  cases r with
  | ok c' =>
    have hred : processConversion s cid mat now = (.ok c', s1) := by
      simp [processConversion, hpt]
    rw [hred] at herr
    exact absurd herr (by simp)
  | error e' =>
    have hred : processConversion s cid mat now = (.error e', updConv s1 cid (failSet e')) := by
      simp [processConversion, hpt]
    have he : e' = e := by
      rw [hred] at herr
      simpa using herr
    subst he
    rw [hred]
    have hex1 : ∃ x ∈ s1.conversions, x.id = cid := by
      have := processTry_exists_at mat now hex
      rw [hpt] at this
      exact this
    refine ⟨updConv_exists_at _ (fun x => rfl) hex1, ?_⟩
    intro x hx hxid
    rcases updConv_rows_at hx (fun x => rfl) hxid with ⟨c0, hc0, hc0id, rfl⟩
    exact ⟨rfl, rfl⟩

/-- Witness for C9: processing an already failed conversion overwrites its
stored short message with the longer AlreadyFailed message. -/
theorem process_error_means_failed_row_witness :
    (∃ x ∈ (processConversion sFailed 1 (.ok "p.pdf") 3).2.conversions, x.id = 1) ∧
    ∀ x ∈ (processConversion sFailed 1 (.ok "p.pdf") 3).2.conversions, x.id = 1 →
      x.status = .failed ∧
      x.error_message = some "Conversion 1 has already failed: boom" :=
  process_error_means_failed_row sFailed 1 (.ok "p.pdf") 3
    "Conversion 1 has already failed: boom" ⟨wConvFailed, by decide, rfl⟩ rfl

/-- C5: a reorder batch whose image ids all belong to the pending conversion
but which repeats an order index is rejected with the duplicate-index error,
and the store, hence every stored order index, is left exactly as it was. -/
theorem reorder_duplicate_rejected (s : Store) (cid : Nat) (orders : List (Nat × Nat))
    (c : Conversion) (hfc : findConv s cid = some c) (hst : c.status = .pending)
    (hown : ∀ o ∈ orders, o.1 ∈ (imagesOf s cid).map (·.id))
    (hdup : ¬(orders.map (·.2)).Nodup) :
    reorderImages s cid orders = (.error "Duplicate order indices are not allowed", s) := by
  have hfind : orders.find? (fun o => !((imagesOf s cid).map (·.id)).contains o.1) = none := by
    rw [List.find?_eq_none]
    intro o ho
    rcases List.mem_map.mp (hown o ho) with ⟨x, hx, hid⟩
    simp
    exact ⟨x, hx, hid⟩
  have hlen : (orders.map (·.2)).dedup.length ≠ (orders.map (·.2)).length := by
    intro heq
    exact hdup (List.dedup_eq_self.mp (List.Sublist.eq_of_length (List.dedup_sublist _) heq))
  simp only [reorderImages, hfc]
  rw [if_pos hst, hfind, if_pos hlen]

/-- Witness for C5: the batch assigns index 1 to both images. -/
theorem reorder_duplicate_rejected_witness :
    reorderImages sPending2 1 [(10, 1), (11, 1)] =
      (.error "Duplicate order indices are not allowed", sPending2) :=
  reorder_duplicate_rejected sPending2 1 [(10, 1), (11, 1)] wConvPending rfl rfl
    (by decide) (by decide)

/-- Order indices stored for one conversion, in table order. -/
def convIdx (s : Store) (cid : Nat) : List Nat :=
  (imagesOf s cid).map (·.order_index)

theorem collapse_range (n k : Nat) (hk : k < n) :
    ((List.range n).erase k).map (fun x => if k < x then x - 1 else x) = List.range (n - 1) := by
  induction n with
  | zero => exact absurd hk (Nat.not_lt_zero k)
  | succ m ih =>
    by_cases hkm : k = m
    · subst hkm
      rw [List.range_succ, List.erase_append, if_neg (by simp)]
      have hsing : ([k] : List Nat).erase k = [] := by simp
      rw [hsing, List.append_nil, Nat.add_sub_cancel]
      have hcong : (List.range k).map (fun x => if k < x then x - 1 else x) =
          (List.range k).map id := by
        refine List.map_congr_left fun x hx => ?_
        rw [List.mem_range] at hx
        rw [if_neg (by omega)]
        rfl
      rw [hcong, List.map_id]
    · have hkm2 : k < m := by omega
      rw [List.range_succ, List.erase_append,
        if_pos (by rw [List.mem_range]; omega), List.map_append, ih hkm2]
      have h1 : (([m] : List Nat).map (fun x => if k < x then x - 1 else x)) = [m - 1] := by
        simp [hkm2]
      rw [h1, Nat.add_sub_cancel]
      have hm : m - 1 + 1 = m := by omega
      calc List.range (m - 1) ++ [m - 1] = List.range (m - 1 + 1) := (List.range_succ _).symm
        _ = List.range m := by rw [hm]

theorem images_split {s : Store} {iid : Nat} {img : ImageRow}
    (hnd : (s.images.map (·.id)).Nodup) (hfi : findImg s iid = some img) :
    ∃ l1 l2, s.images = l1 ++ img :: l2 ∧
      s.images.filter (fun i => !(i.id == iid)) = l1 ++ l2 := by
  rcases List.find?_eq_some.mp hfi with ⟨hpa, l1, l2, heq, hl1⟩
  have hiid : img.id = iid := by simpa using hpa
  refine ⟨l1, l2, heq, ?_⟩
  rw [heq, List.filter_append]
  have h1 : l1.filter (fun i => !(i.id == iid)) = l1 := by
    refine List.filter_eq_self.mpr fun a ha => ?_
    have := hl1 a ha
    simpa using this
  have hl2 : ∀ x ∈ l2, ¬x.id = iid := by
    rw [heq] at hnd
    simp only [List.map_append, List.map_cons] at hnd
    have hmid := List.nodup_middle.mp hnd
    rcases List.nodup_cons.mp hmid with ⟨hnotin, _⟩
    intro x hx hxid
    exact hnotin (by
      rw [← hxid] at hiid
      rw [hiid]
      exact List.mem_append.mpr (Or.inr (List.mem_map_of_mem _ hx)))
  have h2 : (img :: l2).filter (fun i => !(i.id == iid)) = l2 := by
    rw [List.filter_cons]
    rw [if_neg (by simp [hiid])]
    refine List.filter_eq_self.mpr fun a ha => ?_
    simp [hl2 a ha]
  rw [h1, h2]

theorem deleteImage_eq {s : Store} {iid : Nat} {img : ImageRow} {c : Conversion}
    (hfi : findImg s iid = some img) (hfc : findConv s img.conversion_id = some c)
    (hst : c.status = .pending) :
    deleteImage s iid = (true, { s with images :=
      (s.images.filter (fun i => !(i.id == iid))).map (fun i =>
        if i.conversion_id = img.conversion_id ∧ img.order_index < i.order_index
        then { i with order_index := i.order_index - 1 } else i) }) := by
  simp [deleteImage, hfi, hfc, hst]

theorem convIdx_delete {s : Store} {iid : Nat} {img : ImageRow} {c : Conversion}
    (hnd : (s.images.map (·.id)).Nodup)
    (hfi : findImg s iid = some img) (hfc : findConv s img.conversion_id = some c)
    (hst : c.status = .pending) :
    ∃ B : List Nat,
      (convIdx s img.conversion_id).Perm (img.order_index :: B) ∧
      convIdx (deleteImage s iid).2 img.conversion_id =
        B.map (fun x => if img.order_index < x then x - 1 else x) ∧
      ∀ j ∈ s.images, ¬j.id = iid → j.conversion_id = img.conversion_id →
        j.order_index ∈ B := by
  obtain ⟨l1, l2, heq, hfilter⟩ := images_split hnd hfi
  have hiid : img.id = iid := by simpa using List.find?_some hfi
  refine ⟨(((l1 ++ l2).filter (fun i => i.conversion_id == img.conversion_id)).map
    (·.order_index)), ?_, ?_, ?_⟩
  · have hA : convIdx s img.conversion_id =
        ((l1.filter (fun i => i.conversion_id == img.conversion_id)).map (·.order_index)) ++
          img.order_index ::
            ((l2.filter (fun i => i.conversion_id == img.conversion_id)).map (·.order_index)) := by
      rw [convIdx, imagesOf, heq, List.filter_append, List.filter_cons, if_pos (by simp)]
      rw [List.map_append, List.map_cons]
    rw [hA, List.filter_append, List.map_append]
    exact List.perm_middle
  · rw [deleteImage_eq hfi hfc hst]
    show ((((s.images.filter (fun i => !(i.id == iid))).map (fun i =>
        if i.conversion_id = img.conversion_id ∧ img.order_index < i.order_index
        then { i with order_index := i.order_index - 1 } else i)).filter
          (fun i => i.conversion_id == img.conversion_id)).map (·.order_index)) = _
    rw [hfilter, List.filter_map]
    have hcomp : ((fun i : ImageRow => i.conversion_id == img.conversion_id) ∘ (fun i =>
        if i.conversion_id = img.conversion_id ∧ img.order_index < i.order_index
        then { i with order_index := i.order_index - 1 } else i)) =
        fun i : ImageRow => i.conversion_id == img.conversion_id := by
      funext i
      simp only [Function.comp_apply]
      split
      · rfl
      · rfl
    rw [hcomp, List.map_map, List.map_map]
    refine List.map_congr_left fun i hi => ?_
    have hic : i.conversion_id = img.conversion_id := by
      have := (List.mem_filter.mp hi).2
      simpa using this
    simp only [Function.comp_apply]
    by_cases hlt : img.order_index < i.order_index
    · rw [if_pos ⟨hic, hlt⟩, if_pos hlt]
    · rw [if_neg (fun h => hlt h.2), if_neg hlt]
  · intro j hj hjid hjc
    rw [heq] at hj
    have hj2 : j ∈ l1 ++ l2 := by
      rcases List.mem_append.mp hj with h | h
      · exact List.mem_append.mpr (Or.inl h)
      · rcases List.mem_cons.mp h with rfl | h
        · exact absurd hiid hjid
        · exact List.mem_append.mpr (Or.inr h)
    exact List.mem_map_of_mem _ (List.mem_filter.mpr ⟨hj2, by simp [hjc]⟩)

/-- C4: deleting an image of a pending conversion succeeds, removes exactly
that row, decrements by one the index of every remaining image of the same
conversion above the deleted index, keeps every other remaining index, and
turns a contiguous index range 0..n-1 into the contiguous range 0..n-2 with
the relative order of the untouched images preserved. -/
theorem deleteImage_compaction (s : Store) (iid : Nat) (img : ImageRow) (c : Conversion)
    (hnd : (s.images.map (·.id)).Nodup)
    (hfi : findImg s iid = some img) (hfc : findConv s img.conversion_id = some c)
    (hst : c.status = .pending) :
    (deleteImage s iid).1 = true ∧
    (∀ j ∈ (deleteImage s iid).2.images, ¬j.id = iid) ∧
    (∀ j ∈ s.images, ¬j.id = iid → j.conversion_id = img.conversion_id →
      img.order_index < j.order_index →
      { j with order_index := j.order_index - 1 } ∈ (deleteImage s iid).2.images) ∧
    (∀ j ∈ s.images, ¬j.id = iid →
      (¬j.conversion_id = img.conversion_id ∨ j.order_index ≤ img.order_index) →
      j ∈ (deleteImage s iid).2.images) ∧
    ((convIdx s img.conversion_id).Perm
        (List.range (convIdx s img.conversion_id).length) →
      (convIdx (deleteImage s iid).2 img.conversion_id).Perm
        (List.range ((convIdx s img.conversion_id).length - 1)) ∧
      ∀ j1 ∈ s.images, ∀ j2 ∈ s.images, ¬j1.id = iid → ¬j2.id = iid →
        j1.conversion_id = img.conversion_id → j2.conversion_id = img.conversion_id →
        j1.order_index < j2.order_index →
        (if img.order_index < j1.order_index then j1.order_index - 1 else j1.order_index) <
          (if img.order_index < j2.order_index then j2.order_index - 1
            else j2.order_index)) := by
  have hred := deleteImage_eq hfi hfc hst
  refine ⟨by rw [hred], ?_, ?_, ?_, ?_⟩
  · intro j hj
    rw [hred] at hj
    rcases List.mem_map.mp hj with ⟨i, hif, rfl⟩
    have hi : ¬i.id = iid := by
      have := (List.mem_filter.mp hif).2
      simpa using this
    split
    · exact hi
    · exact hi
  · intro j hj hjid hjc hlt
    rw [hred]
    refine List.mem_map.mpr ⟨j, List.mem_filter.mpr ⟨hj, by simp [hjid]⟩, ?_⟩
    rw [if_pos ⟨hjc, hlt⟩]
  · intro j hj hjid hcase
    rw [hred]
    refine List.mem_map.mpr ⟨j, List.mem_filter.mpr ⟨hj, by simp [hjid]⟩, ?_⟩
    rcases hcase with hne | hle
    · rw [if_neg (fun h => hne h.1)]
    · rw [if_neg (fun h => absurd h.2 (Nat.not_lt.mpr hle))]
  · intro hperm
    obtain ⟨B, hpermB, hconv, hmemB⟩ := convIdx_delete hnd hfi hfc hst
    have hkB : (img.order_index :: B).Perm
        (List.range (convIdx s img.conversion_id).length) := hpermB.symm.trans hperm
    have hk : img.order_index < (convIdx s img.conversion_id).length := by
      have := hkB.mem_iff.mp (List.mem_cons_self _ _)
      exact List.mem_range.mp this
    have hBerase : B.Perm
        ((List.range (convIdx s img.conversion_id).length).erase img.order_index) :=
      (List.cons_perm_iff_perm_erase.mp hkB).2
    have hknotB : img.order_index ∉ B := by
      have hnodup : (img.order_index :: B).Nodup :=
        (hkB.nodup_iff).mpr (List.nodup_range _)
      exact (List.nodup_cons.mp hnodup).1
    constructor
    · rw [hconv]
      have hmap := hBerase.map (fun x => if img.order_index < x then x - 1 else x)
      rw [collapse_range _ _ hk] at hmap
      exact hmap
    · intro j1 h1 j2 h2 hid1 hid2 hc1 hc2 hlt
      have hne1 : ¬j1.order_index = img.order_index := by
        intro hx
        exact hknotB (hx ▸ hmemB j1 h1 hid1 hc1)
      split_ifs <;> omega

/-- Witness for C4: deleting the image at index 0 of a two-image conversion
succeeds and leaves the contiguous index range 0..0. -/
theorem deleteImage_compaction_witness :
    (deleteImage sPending2 10).1 = true ∧
    (convIdx (deleteImage sPending2 10).2 1).Perm (List.range 1) := by
  have h := deleteImage_compaction sPending2 10 (wImg 10 0) wConvPending (by decide) rfl rfl rfl
  exact ⟨h.1, (h.2.2.2.2 (by decide)).1⟩

/-- C10: a successful deleteImage changes nothing except removing the image's
row and decrementing the order index of same-conversion images above it: the
conversion table is untouched, images of other conversions and same-conversion
images at or below the deleted index survive unchanged, and every row of the
result is either an unchanged old row or such a decremented row. -/
theorem deleteImage_frame (s : Store) (iid : Nat) (img : ImageRow) (c : Conversion)
    (hfi : findImg s iid = some img) (hfc : findConv s img.conversion_id = some c)
    (hst : c.status = .pending) :
    (deleteImage s iid).1 = true ∧
    (deleteImage s iid).2.conversions = s.conversions ∧
    (∀ j ∈ s.images, ¬j.id = iid → ¬j.conversion_id = img.conversion_id →
      j ∈ (deleteImage s iid).2.images) ∧
    (∀ j ∈ s.images, ¬j.id = iid → j.conversion_id = img.conversion_id →
      j.order_index ≤ img.order_index → j ∈ (deleteImage s iid).2.images) ∧
    (∀ j' ∈ (deleteImage s iid).2.images, j' ∈ s.images ∨
      ∃ j ∈ s.images, j.conversion_id = img.conversion_id ∧
        img.order_index < j.order_index ∧
        j' = { j with order_index := j.order_index - 1 }) := by
  have hred := deleteImage_eq hfi hfc hst
  refine ⟨by rw [hred], by rw [hred], ?_, ?_, ?_⟩
  · intro j hj hjid hjc
    rw [hred]
    refine List.mem_map.mpr ⟨j, List.mem_filter.mpr ⟨hj, by simp [hjid]⟩, ?_⟩
    rw [if_neg (fun h => hjc h.1)]
  · intro j hj hjid hjc hle
    rw [hred]
    refine List.mem_map.mpr ⟨j, List.mem_filter.mpr ⟨hj, by simp [hjid]⟩, ?_⟩
    rw [if_neg (fun h => absurd h.2 (Nat.not_lt.mpr hle))]
  · intro j' hj'
    rw [hred] at hj'
    rcases List.mem_map.mp hj' with ⟨j, hjf, rfl⟩
    have hjmem : j ∈ s.images := List.mem_of_mem_filter hjf
    by_cases hcond : j.conversion_id = img.conversion_id ∧ img.order_index < j.order_index
    · right
      exact ⟨j, hjmem, hcond.1, hcond.2, by rw [if_pos hcond]⟩
    · left
      rw [if_neg hcond]
      exact hjmem

/-- Witness for C10: deleting the image at index 1 keeps the conversion row
and the untouched index-0 image. -/
theorem deleteImage_frame_witness :
    (deleteImage sPending2 11).1 = true ∧
    (deleteImage sPending2 11).2.conversions = sPending2.conversions ∧
    wImg 10 0 ∈ (deleteImage sPending2 11).2.images := by
  have h := deleteImage_frame sPending2 11 (wImg 11 1) wConvPending rfl rfl rfl
  exact ⟨h.1, h.2.1, h.2.2.2.1 (wImg 10 0) (by decide) (by decide) rfl (by decide)⟩

theorem imagesOf_updImg_ne (s : Store) (cid0 iid tcid : Nat) (f : ImageRow → ImageRow)
    (hf : ∀ i, (f i).conversion_id = i.conversion_id) (hne : ¬tcid = cid0) :
    imagesOf (updImg s cid0 iid f) tcid = imagesOf s tcid := by
  show (s.images.map _).filter _ = _
  rw [List.filter_map]
  have hcomp : ((fun i : ImageRow => i.conversion_id == tcid) ∘ (fun i =>
      if i.id = iid ∧ i.conversion_id = cid0 then f i else i)) =
      fun i : ImageRow => i.conversion_id == tcid := by
    funext i
    simp only [Function.comp_apply]
    split
    · rw [hf]
    · rfl
  rw [hcomp]
  have hid : (s.images.filter (fun i => i.conversion_id == tcid)).map (fun i =>
      if i.id = iid ∧ i.conversion_id = cid0 then f i else i) =
      (s.images.filter (fun i => i.conversion_id == tcid)).map id := by
    refine List.map_congr_left fun i hi => ?_
    have hic : i.conversion_id = tcid := by
      have := (List.mem_filter.mp hi).2
      simpa using this
    rw [if_neg (by intro h; exact hne (hic ▸ h.2))]
    rfl
  rw [hid, List.map_id]
  rfl

theorem imagesOf_applyOrders_ne (s : Store) (cid0 : Nat) (orders : List (Nat × Nat))
    (tcid : Nat) (hne : ¬tcid = cid0) :
    imagesOf (applyOrders s cid0 orders) tcid = imagesOf s tcid := by
  induction orders generalizing s with
  | nil => rfl
  | cons o os ih =>
    rw [applyOrders_cons, ih, imagesOf_updImg_ne]
    · intro i
      rfl
    · exact hne

theorem imagesOf_delete_ne {s : Store} {iid : Nat} {img : ImageRow} {c : Conversion}
    (hnd : (s.images.map (·.id)).Nodup)
    (hfi : findImg s iid = some img) (hfc : findConv s img.conversion_id = some c)
    (hst : c.status = .pending) (tcid : Nat) (hne : ¬tcid = img.conversion_id) :
    imagesOf (deleteImage s iid).2 tcid = imagesOf s tcid := by
  obtain ⟨l1, l2, heq, hfilter⟩ := images_split hnd hfi
  rw [deleteImage_eq hfi hfc hst]
  show ((s.images.filter (fun i => !(i.id == iid))).map (fun i =>
      if i.conversion_id = img.conversion_id ∧ img.order_index < i.order_index
      then { i with order_index := i.order_index - 1 } else i)).filter
        (fun i => i.conversion_id == tcid) = imagesOf s tcid
  rw [hfilter, List.filter_map]
  have hcomp : ((fun i : ImageRow => i.conversion_id == tcid) ∘ (fun i =>
      if i.conversion_id = img.conversion_id ∧ img.order_index < i.order_index
      then { i with order_index := i.order_index - 1 } else i)) =
      fun i : ImageRow => i.conversion_id == tcid := by
    funext i
    simp only [Function.comp_apply]
    split
    · rfl
    · rfl
  rw [hcomp]
  have hid : ((l1 ++ l2).filter (fun i => i.conversion_id == tcid)).map (fun i =>
      if i.conversion_id = img.conversion_id ∧ img.order_index < i.order_index
      then { i with order_index := i.order_index - 1 } else i) =
      ((l1 ++ l2).filter (fun i => i.conversion_id == tcid)).map id := by
    refine List.map_congr_left fun i hi => ?_
    have hic : i.conversion_id = tcid := by
      have := (List.mem_filter.mp hi).2
      simpa using this
    rw [if_neg (by intro h; exact hne (hic ▸ h.1))]
    rfl
  rw [hid, List.map_id]
  rw [imagesOf, heq, List.filter_append, List.filter_append, List.filter_cons,
    if_neg (by simp; intro h; exact hne (h ▸ rfl))]

theorem processTry_images (s : Store) (cid : Nat) (mat : Except String String) (now : Nat) :
    (processTry s cid mat now).2.images = s.images := by
  rcases processTry_cases s cid mat now with ⟨hfc, hpt⟩ | ⟨c, hfc, hst, hpt⟩ |
    ⟨c, hfc, hst, hpt⟩ | ⟨c, hfc, hnc, hnf, hrest⟩
  · rw [hpt]
  · rw [hpt]
  · rw [hpt]
  · rcases hrest with ⟨him, hpt⟩ | ⟨him, e', hm, hpt⟩ | ⟨him, path, hm, hpt⟩
    · rw [hpt]
      rfl
    · rw [hpt]
      rfl
    · rw [hpt]
      rfl

theorem processConversion_images (s : Store) (cid : Nat) (mat : Except String String)
    (now : Nat) : (processConversion s cid mat now).2.images = s.images := by
  rcases hpt : processTry s cid mat now with ⟨r, s1⟩
  have hs1 : s1.images = s.images := by
    have := processTry_images s cid mat now
    rw [hpt] at this
    exact this
  cases r with
  | ok c =>
    have hred : processConversion s cid mat now = (.ok c, s1) := by
      simp [processConversion, hpt]
    rw [hred]
    exact hs1
  | error e =>
    have hred : processConversion s cid mat now = (.error e, updConv s1 cid (failSet e)) := by
      simp [processConversion, hpt]
    rw [hred]
    exact hs1

theorem updConv_keeps (f : Conversion → Conversion)
    (hf : ∀ x, (f x).id = x.id ∧ (f x).page_size = x.page_size ∧
      (f x).orientation = x.orientation)
    {s : Store} {cid : Nat} {c : Conversion} (hc : c ∈ s.conversions) :
    ∃ c' ∈ (updConv s cid f).conversions,
      c'.id = c.id ∧ c'.page_size = c.page_size ∧ c'.orientation = c.orientation := by
  refine ⟨if c.id = cid then f c else c, List.mem_map_of_mem _ hc, ?_⟩
  split
  · exact hf c
  · exact ⟨rfl, rfl, rfl⟩

theorem process_keeps_fields (s : Store) (cid : Nat) (mat : Except String String) (now : Nat)
    (c : Conversion) (hc : c ∈ s.conversions) :
    ∃ c' ∈ (processConversion s cid mat now).2.conversions,
      c'.id = c.id ∧ c'.page_size = c.page_size ∧ c'.orientation = c.orientation := by
  rcases hpt : processTry s cid mat now with ⟨r, s1⟩
  have hs1 : ∃ c' ∈ s1.conversions,
      c'.id = c.id ∧ c'.page_size = c.page_size ∧ c'.orientation = c.orientation := by
    rcases processTry_cases s cid mat now with ⟨hfc, hpt2⟩ | ⟨c0, hfc, hst, hpt2⟩ |
      ⟨c0, hfc, hst, hpt2⟩ | ⟨c0, hfc, hnc, hnf, hrest⟩
    · rw [hpt] at hpt2
      have hs : s1 = s := congrArg Prod.snd hpt2
      exact hs ▸ ⟨c, hc, rfl, rfl, rfl⟩
    · rw [hpt] at hpt2
      have hs : s1 = s := congrArg Prod.snd hpt2
      exact hs ▸ ⟨c, hc, rfl, rfl, rfl⟩
    · rw [hpt] at hpt2
      have hs : s1 = s := congrArg Prod.snd hpt2
      exact hs ▸ ⟨c, hc, rfl, rfl, rfl⟩
    · rcases hrest with ⟨him, hpt2⟩ | ⟨him, e', hm, hpt2⟩ | ⟨him, path, hm, hpt2⟩
      · rw [hpt] at hpt2
        have hs : s1 = updConv (updConv s cid procSet) cid noImagesSet :=
          congrArg Prod.snd hpt2
        subst hs
        rcases updConv_keeps procSet (fun x => ⟨rfl, rfl, rfl⟩) hc with ⟨c1, hc1, e1, e2, e3⟩
        rcases updConv_keeps noImagesSet (fun x => ⟨rfl, rfl, rfl⟩) hc1 with
          ⟨c2, hc2, f1, f2, f3⟩
        exact ⟨c2, hc2, f1.trans e1, f2.trans e2, f3.trans e3⟩
      · rw [hpt] at hpt2
        have hs : s1 = updConv s cid procSet := congrArg Prod.snd hpt2
        subst hs
        exact updConv_keeps procSet (fun x => ⟨rfl, rfl, rfl⟩) hc
      · rw [hpt] at hpt2
        have hs : s1 = updConv (updConv s cid procSet) cid (doneSet path now) :=
          congrArg Prod.snd hpt2
        subst hs
        rcases updConv_keeps procSet (fun x => ⟨rfl, rfl, rfl⟩) hc with ⟨c1, hc1, e1, e2, e3⟩
        rcases updConv_keeps (doneSet path now) (fun x => ⟨rfl, rfl, rfl⟩) hc1 with
          ⟨c2, hc2, f1, f2, f3⟩
        exact ⟨c2, hc2, f1.trans e1, f2.trans e2, f3.trans e3⟩
  cases r with
  | ok c0 =>
    have hred : processConversion s cid mat now = (.ok c0, s1) := by
      simp [processConversion, hpt]
    rw [hred]
    exact hs1
  | error e =>
    have hred : processConversion s cid mat now = (.error e, updConv s1 cid (failSet e)) := by
      simp [processConversion, hpt]
    rw [hred]
    rcases hs1 with ⟨c1, hc1, e1, e2, e3⟩
    rcases updConv_keeps (failSet e) (fun x => ⟨rfl, rfl, rfl⟩) hc1 with ⟨c2, hc2, f1, f2, f3⟩
    exact ⟨c2, hc2, f1.trans e1, f2.trans e2, f3.trans e3⟩

theorem imagesOf_insert_img (s : Store) (i : ImageRow) (tcid n' : Nat)
    (hne : ¬i.conversion_id = tcid) :
    imagesOf { s with images := s.images ++ [i], nextImageId := n' } tcid =
      imagesOf s tcid := by
  show (s.images ++ [i]).filter (fun x => x.conversion_id == tcid) =
    s.images.filter (fun x => x.conversion_id == tcid)
  rw [List.filter_append]
  have h1 : ([i].filter (fun x => x.conversion_id == tcid)) = [] := by
    simp [hne]
  rw [h1, List.append_nil]

/-- C6: once a conversion has left pending, no operation ever changes its page
size, its orientation or its set of image rows; moreover updateConversion,
uploadImage and reorderImages against it fail with their invalid-state errors
and deleteImage on its images returns false, in each case leaving the store
unchanged. -/
theorem nonpending_frozen (s : Store) (c : Conversion) (hwf : WF s)
    (hc : c ∈ s.conversions) (hnp : ¬c.status = .pending) :
    (∀ s', Step s s' →
      (∃ c' ∈ s'.conversions, c'.id = c.id ∧ c'.page_size = c.page_size ∧
        c'.orientation = c.orientation) ∧
      imagesOf s' c.id = imagesOf s c.id) ∧
    (∀ ps? ori?, updateConversion s c.id ps? ori? =
      (.error ("Cannot update conversion with status: " ++ c.status.str ++
        ". Only pending conversions can be updated."), s)) ∧
    (∀ now nm fp sz fmt idx, uploadImage s now c.id nm fp sz fmt idx =
      (.error ("Cannot upload images to conversion with status: " ++ c.status.str), s)) ∧
    (∀ orders, reorderImages s c.id orders =
      (.error ("Cannot reorder images for conversion in " ++ c.status.str ++
        " status. Only pending conversions can be modified."), s)) ∧
    (∀ iid img, findImg s iid = some img → img.conversion_id = c.id →
      deleteImage s iid = (false, s)) := by
  have hfind : findConv s c.id = some c := findConv_eq_of_mem hwf.1 hc
  have hne_of_pending : ∀ cid0 c0, findConv s cid0 = some c0 → c0.status = .pending →
      ¬c.id = cid0 := by
    intro cid0 c0 hfc0 hp0 h
    obtain ⟨hm0, hid0⟩ := findConv_mem hfc0
    have hcc : c = c0 := conv_unique hwf.1 hc hm0 (by rw [h, hid0])
    rw [hcc] at hnp
    exact hnp hp0
  refine ⟨?_, ?_, ?_, ?_, ?_⟩
  · intro s' hstep
    cases hstep with
    | create ps ori now =>
      exact ⟨⟨c, List.mem_append.mpr (Or.inl hc), rfl, rfl, rfl⟩, rfl⟩
    | update cid0 ps? ori? =>
      cases hfc0 : findConv s cid0 with
      | none =>
        have hred : (updateConversion s cid0 ps? ori?).2 = s := by
          simp [updateConversion, hfc0]
        rw [hred]
        exact ⟨⟨c, hc, rfl, rfl, rfl⟩, rfl⟩
      | some c0 =>
        by_cases hp0 : c0.status = .pending
        · have hne := hne_of_pending cid0 c0 hfc0 hp0
          by_cases hempty : ps? = none ∧ ori? = none
          · have hred : (updateConversion s cid0 ps? ori?).2 = s := by
              simp [updateConversion, hfc0, hp0, hempty.1, hempty.2]
            rw [hred]
            exact ⟨⟨c, hc, rfl, rfl, rfl⟩, rfl⟩
          · have hred : (updateConversion s cid0 ps? ori?).2 = updConv s cid0 (fun x =>
                { x with page_size := ps?.getD x.page_size,
                         orientation := ori?.getD x.orientation }) := by
              simp only [updateConversion, hfc0, hp0, if_true]
              rw [if_neg hempty]
            rw [hred]
            refine ⟨⟨c, List.mem_map.mpr ⟨c, hc, by rw [if_neg hne]⟩, rfl, rfl, rfl⟩, rfl⟩
        · have hred : (updateConversion s cid0 ps? ori?).2 = s := by
            simp [updateConversion, hfc0, hp0]
          rw [hred]
          exact ⟨⟨c, hc, rfl, rfl, rfl⟩, rfl⟩
    | upload now0 cid0 nm fp sz fmt idx =>
      cases hfc0 : findConv s cid0 with
      | none =>
        have hred : (uploadImage s now0 cid0 nm fp sz fmt idx).2 = s := by
          simp [uploadImage, hfc0]
        rw [hred]
        exact ⟨⟨c, hc, rfl, rfl, rfl⟩, rfl⟩
      | some c0 =>
        by_cases hp0 : c0.status = .pending
        · have hne := hne_of_pending cid0 c0 hfc0 hp0
          have hred : (uploadImage s now0 cid0 nm fp sz fmt idx).2 =
              { s with
                images := s.images ++ [{ id := s.nextImageId, conversion_id := cid0, original_name := nm, file_path := fp, file_size := sz, format := fmt, order_index := idx, uploaded_at := now0 }]
                nextImageId := s.nextImageId + 1 } := by
            simp [uploadImage, hfc0, hp0]
          rw [hred]
          refine ⟨⟨c, hc, rfl, rfl, rfl⟩, ?_⟩
          exact imagesOf_insert_img s _ c.id (s.nextImageId + 1) (fun h => hne h.symm)
        · have hred : (uploadImage s now0 cid0 nm fp sz fmt idx).2 = s := by
            simp [uploadImage, hfc0, hp0]
          rw [hred]
          exact ⟨⟨c, hc, rfl, rfl, rfl⟩, rfl⟩
    | reorder cid0 orders =>
      cases hfc0 : findConv s cid0 with
      | none =>
        have hred : (reorderImages s cid0 orders).2 = s := by
          simp [reorderImages, hfc0]
        rw [hred]
        exact ⟨⟨c, hc, rfl, rfl, rfl⟩, rfl⟩
      | some c0 =>
        by_cases hp0 : c0.status = .pending
        · have hne := hne_of_pending cid0 c0 hfc0 hp0
          cases hrd : orders.find? (fun o => !((imagesOf s cid0).map (·.id)).contains o.1) with
          | some o =>
            have hred : (reorderImages s cid0 orders).2 = s := by
              simp only [reorderImages, hfc0]
              rw [if_pos hp0, hrd]
            rw [hred]
            exact ⟨⟨c, hc, rfl, rfl, rfl⟩, rfl⟩
          | none =>
            by_cases hdup : (orders.map (·.2)).dedup.length ≠ (orders.map (·.2)).length
            · have hred : (reorderImages s cid0 orders).2 = s := by
                simp only [reorderImages, hfc0]
                rw [if_pos hp0, hrd, if_pos hdup]
              rw [hred]
              exact ⟨⟨c, hc, rfl, rfl, rfl⟩, rfl⟩
            · have hred : (reorderImages s cid0 orders).2 = applyOrders s cid0 orders := by
                simp only [reorderImages, hfc0]
                rw [if_pos hp0, hrd, if_neg hdup]
              rw [hred]
              constructor
              · refine ⟨c, ?_, rfl, rfl, rfl⟩
                rw [applyOrders_conversions]
                exact hc
              · exact imagesOf_applyOrders_ne s cid0 orders c.id hne
        · have hred : (reorderImages s cid0 orders).2 = s := by
            simp [reorderImages, hfc0, hp0]
          rw [hred]
          exact ⟨⟨c, hc, rfl, rfl, rfl⟩, rfl⟩
    | delete iid =>
      cases hfi0 : findImg s iid with
      | none =>
        have hred : (deleteImage s iid).2 = s := by
          simp [deleteImage, hfi0]
        rw [hred]
        exact ⟨⟨c, hc, rfl, rfl, rfl⟩, rfl⟩
      | some img =>
        cases hfc2 : findConv s img.conversion_id with
        | none =>
          have hred : (deleteImage s iid).2 = s := by
            simp [deleteImage, hfi0, hfc2]
          rw [hred]
          exact ⟨⟨c, hc, rfl, rfl, rfl⟩, rfl⟩
        | some c2 =>
          by_cases hp2 : c2.status = .pending
          · have hne := hne_of_pending img.conversion_id c2 hfc2 hp2
            constructor
            · rw [deleteImage_eq hfi0 hfc2 hp2]
              exact ⟨c, hc, rfl, rfl, rfl⟩
            · exact imagesOf_delete_ne hwf.2.1 hfi0 hfc2 hp2 c.id hne
          · have hred : (deleteImage s iid).2 = s := by
              simp [deleteImage, hfi0, hfc2, hp2]
            rw [hred]
            exact ⟨⟨c, hc, rfl, rfl, rfl⟩, rfl⟩
    | process cid0 mat now =>
      constructor
      · exact process_keeps_fields s cid0 mat now c hc
      · show (processConversion s cid0 mat now).2.images.filter _ = _
        rw [processConversion_images]
        rfl
  · intro ps? ori?
    simp only [updateConversion, hfind]
    rw [if_neg hnp]
  · intro now nm fp sz fmt idx
    simp only [uploadImage, hfind]
    rw [if_neg hnp]
  · intro orders
    simp only [reorderImages, hfind]
    rw [if_neg hnp]
  · intro iid img hfi2 hic
    have hfc2 : findConv s img.conversion_id = some c := by
      rw [hic]
      exact hfind
    simp [deleteImage, hfi2, hfc2, hnp]

/-- Witness for C6 at a failed conversion: the update and upload calls fail
with the invalid-state errors and leave the store unchanged. -/
theorem nonpending_frozen_witness :
    updateConversion sFailed 1 (some .a3) none =
      (.error "Cannot update conversion with status: failed. Only pending conversions can be updated.",
        sFailed) ∧
    uploadImage sFailed 0 1 "a.png" "/u/a.png" 3 .png 0 =
      (.error "Cannot upload images to conversion with status: failed", sFailed) := by
  have h := nonpending_frozen sFailed wConvFailed (by unfold WF; decide) (by decide) (by decide)
  exact ⟨h.2.1 (some .a3) none, h.2.2.1 0 "a.png" "/u/a.png" 3 .png 0⟩

end ImgToPdf
